import Mathlib

/-!
# Verification of the PyramidKV cache-compression engine

A shallow embedding of `update_kv` from
`src/MInference/minference/modules/pyramidkv.py` (class `PyramidKVCluster`).

Modelling conventions:
* Tensors carry exact rationals (`ℚ`); the float `exp` used by softmax and the
  irrational `1 / sqrt(head_dim)` scale are abstracted as parameters `e` and
  `scale`, and the dtype minimum `torch.finfo(dtype).min` (the additive stand-in
  for `-∞` in the causal mask) is the parameter `negInf`.
* All batch / head slices are independent in the source (top-k, gather and
  pooling act per `(batch, head)` pair), so the embedding models one
  `(batch, head)` slice along the sequence axis; a cache tensor is a
  `List Vec` of `head_dim`-vectors in position order.  This covers the
  `n_rep is None` code path of `update_kv`.
* Python exceptions (`ZeroDivisionError` from the scheduler, the pooling
  `ValueError`, the tensor-shape and out-of-bounds errors from broadcasting,
  pooling and `gather`, and the `assert` on sequence lengths) are modelled by
  an `Option` result: `none` means the call raises.
* Python `//` is floor division, `Int.fdiv`; Python negative-free slicing
  `x[-n:]` / `x[:-n]` (the source always uses `n = window_size ≥ 1`) becomes
  `lastN` / `dropLastN`.
-/

set_option maxHeartbeats 1000000

namespace PyramidKV

/-- A head-dimension vector of exact rational entries
(one cache entry's key or value row). -/
abbrev Vec := List ℚ

/-- Static configuration of `PyramidKVCluster` (the `__init__` fields that
`update_kv` reads).  `num_layers` is unused by `update_kv` and omitted. -/
structure Cfg where
  num_hidden_layers : ℤ
  window_size : ℕ
  max_capacity_prompt : ℤ
  kernel_size : ℕ
  pooling : String
  beta : ℤ
  layer_idx : ℤ

/-- Python slice `l[-n:]` for `n ≥ 1`: the trailing `n` elements
(all of `l` when `l` is shorter than `n`). -/
def lastN {α : Type*} (n : ℕ) (l : List α) : List α := l.drop (l.length - n)

/-- Python slice `l[:-n]` for `n ≥ 1`: all but the trailing `n` elements. -/
def dropLastN {α : Type*} (n : ℕ) (l : List α) : List α := l.take (l.length - n)

/-- Dot product of two vectors (one entry of `torch.matmul` with the
transposed key matrix). -/
def dot (a b : Vec) : ℚ := (List.zipWith (· * ·) a b).sum

/-- Map with the position index (models index-dependent tensor updates). -/
def idxMap {α β : Type*} (f : ℕ → α → β) (l : List α) : List β :=
  ((List.range l.length).zip l).map fun p => f p.1 p.2

/-- One softmax row, `nn.functional.softmax(row, dim=-1)`, with the dtype's
`exp` abstracted as the parameter `e`. -/
def softmaxRow (e : ℚ → ℚ) (row : List ℚ) : List ℚ :=
  row.map fun x => e x / (row.map e).sum

/-- `attn_weights` before masking: scaled dot products of the trailing
`window_size` query rows against every key position, i.e.
`torch.matmul(query_states[..., -window_size:, :], keys.transpose(2, 3)) / sqrt(head_dim)`;
`scale` stands for `1 / sqrt(head_dim)`. -/
def rawScores (scale : ℚ) (ws : ℕ) (keys queries : List Vec) : List (List ℚ) :=
  (lastN ws queries).map fun q => keys.map fun k => dot q k * scale

/-- `attn_weights[:, :, -window_size:, -window_size:] += mask` where
`mask[i][j'] = 0` iff `j' ≤ i` and the dtype minimum otherwise
(`mask.masked_fill_(mask_cond < (mask_cond + 1).view(-1, 1), 0)`).
Column `j` of the full matrix is window column `j' = j - histL`, so the mask
adds `negInf` exactly to the entries with `histL + i < j`. -/
def addWindowMask (negInf : ℚ) (histL : ℕ) (rows : List (List ℚ)) : List (List ℚ) :=
  idxMap (fun i row => idxMap (fun j x => if histL + i < j then x + negInf else x) row) rows

/-- The masked, softmax-normalised attention weights of the window query rows. -/
def attnWeights (e : ℚ → ℚ) (scale negInf : ℚ) (ws : ℕ) (keys queries : List Vec) :
    List (List ℚ) :=
  (addWindowMask negInf (keys.length - ws) (rawScores scale ws keys queries)).map
    (softmaxRow e)

/-- Sum a matrix down its columns (`.sum(dim=-2)` of a `rows × width` block). -/
def colSums (width : ℕ) (rows : List (List ℚ)) : List ℚ :=
  (List.range width).map fun j => (rows.map fun r => r.getD j 0).sum

/-- `attn_weights[:, :, -window_size:, :-window_size].sum(dim=-2)`: for each
historical position, the total softmax mass it receives from the window rows. -/
def attnWeightsSum (e : ℚ → ℚ) (scale negInf : ℚ) (ws : ℕ) (keys queries : List Vec) :
    List ℚ :=
  colSums (keys.length - ws)
    ((attnWeights e scale negInf ws keys queries).map (List.take (keys.length - ws)))

/-- `F.avg_pool1d(x, kernel_size=k, padding=pad, stride=1)` with the default
`count_include_pad=True`: the zero padding participates in the average and the
divisor is always the full kernel size. -/
def avgPool1d (k pad : ℕ) (x : List ℚ) : List ℚ :=
  (List.range (x.length + 2 * pad + 1 - k)).map fun p =>
    (((List.replicate pad (0 : ℚ) ++ x ++ List.replicate pad 0).drop p).take k).sum / k

/-- `F.max_pool1d(x, kernel_size=k, padding=pad, stride=1)`: max-pool padding is
neutral, so each output is the max over the in-range part of the window. -/
def maxPool1d (k pad : ℕ) (x : List ℚ) : List ℚ :=
  (List.range (x.length + 2 * pad + 1 - k)).map fun p =>
    match (x.take (p + k - pad)).drop (p - pad) with
    | [] => 0
    | h :: t => t.foldl max h

/-- The `self.pooling` dispatch with `padding = kernel_size // 2`.  `none`
models both the `ValueError` on an unsupported pooling kind and the framework
shape error when the padded input is shorter than the kernel. -/
def pooledScores (cfg : Cfg) (s : List ℚ) : Option (List ℚ) :=
  if cfg.kernel_size = 0 ∨ s.length + 2 * (cfg.kernel_size / 2) < cfg.kernel_size then none
  else if cfg.pooling = "avgpool" then
    some (avgPool1d cfg.kernel_size (cfg.kernel_size / 2) s)
  else if cfg.pooling = "maxpool" then
    some (maxPool1d cfg.kernel_size (cfg.kernel_size / 2) s)
  else none

/-- Comparison used to model `attn_cache.topk(k, dim=-1)`: larger score first;
ties broken deterministically towards the lower index (torch leaves tie order
unspecified and none of the verified properties depend on it). -/
def topkRel (s : List ℚ) (i j : ℕ) : Prop :=
  s.getD j 0 < s.getD i 0 ∨ (s.getD i 0 = s.getD j 0 ∧ i ≤ j)

instance (s : List ℚ) : DecidableRel (topkRel s) := fun i j => by
  unfold topkRel; infer_instance

/-- `attn_cache.topk(k, dim=-1).indices`: indices of the `k` largest scores. -/
def topkIndices (k : ℕ) (s : List ℚ) : List ℕ :=
  (List.insertionSort (topkRel s) (List.range s.length)).take k

/-- `indices.sort(dim=-1)[0]`: the selected indices in ascending
(chronological) order. -/
def sortedTopk (k : ℕ) (s : List ℚ) : List ℕ :=
  List.insertionSort (· ≤ ·) (topkIndices k s)

/-- `.gather(dim=2, index=indices.unsqueeze(-1).expand(..., head_dim))` along
the sequence axis. -/
def gatherIdx (idx : List ℕ) (l : List Vec) : List Vec :=
  idx.map fun i => l.getD i []

/-- The capacity governing a call:
`capacity_override if capacity_override is not None else self.max_capacity_prompt`. -/
def governingCap (cfg : Cfg) (co : Option ℤ) : ℤ :=
  co.getD cfg.max_capacity_prompt

/-- The scheduler's `min_num` / `max_num` computation, returned as
`(max_num, min_num)` after the `max_num >= q_len - window_size` adjustment. -/
def schedMinMax (cmc ws beta qlen : ℤ) : ℤ × ℤ :=
  let mn := Int.fdiv (cmc - ws) beta
  let mx := (cmc - ws) * 2 - mn
  if qlen - ws ≤ mx then (qlen - ws, (cmc - ws) * 2 - (qlen - ws)) else (mx, mn)

/-- `steps = (max_num - min_num) // (self.num_hidden_layers - 1)`. -/
def schedSteps (cmc ws beta nhl qlen : ℤ) : ℤ :=
  Int.fdiv ((schedMinMax cmc ws beta qlen).1 - (schedMinMax cmc ws beta qlen).2) (nhl - 1)

/-- The per-layer budget: the source's (shadowing) local
`max_capacity_prompt = max_num - self.layer_idx * steps`. -/
def layerBudget (cmc ws beta nhl li qlen : ℤ) : ℤ :=
  (schedMinMax cmc ws beta qlen).1 - li * schedSteps cmc ws beta nhl qlen

/-- The shared body of the two compressing branches of `update_kv` (the source
duplicates this block; the branches differ only in the retention count `kSel`:
`current_max_capacity - window_size` in the moderate regime, the layer budget
in the aggressive one).  Guards model, in evaluation order: the mask broadcast
shape error when `q_len < window_size`; the pooling errors; the degenerate
window-only truncation when `current_max_capacity <= window_size`; `topk` on a
negative count; out-of-bounds `gather` indices. -/
def compressBranch (e : ℚ → ℚ) (scale negInf : ℚ) (cfg : Cfg) (cmc kSel : ℤ)
    (keys queries values : List Vec) : Option (List Vec × List Vec) :=
  if keys.length < cfg.window_size then none
  else
    match pooledScores cfg (attnWeightsSum e scale negInf cfg.window_size keys queries) with
    | none => none
    | some cache =>
      if cmc ≤ (cfg.window_size : ℤ) then
        some (lastN cfg.window_size keys, lastN cfg.window_size values)
      else if min kSel (cache.length : ℤ) < 0 then none
      else if (sortedTopk (min kSel (cache.length : ℤ)).toNat cache).all
          (fun i => decide (i < keys.length - cfg.window_size)) then
        some (gatherIdx (sortedTopk (min kSel (cache.length : ℤ)).toNat cache)
                (dropLastN cfg.window_size keys) ++ lastN cfg.window_size keys,
              gatherIdx (sortedTopk (min kSel (cache.length : ℤ)).toNat cache)
                (dropLastN cfg.window_size values) ++ lastN cfg.window_size values)
      else none

/-- `PyramidKVCluster.update_kv` for one `(batch, head)` slice.  The branch
structure mirrors the source: the length `assert`; the scheduler arithmetic
(whose divisions raise before any regime is chosen — hence the `beta = 0` and
`num_hidden_layers = 1` guards precede the passthrough return); then the
three-regime dispatch on `q_len` against `current_max_capacity`. -/
def update_kv (e : ℚ → ℚ) (scale negInf : ℚ) (cfg : Cfg)
    (key_states query_states value_states : List Vec) (co : Option ℤ) :
    Option (List Vec × List Vec) :=
  if key_states.length ≠ query_states.length then none
  else if cfg.beta = 0 ∨ cfg.num_hidden_layers = 1 then none
  else if (key_states.length : ℤ) < governingCap cfg co then
    some (key_states, value_states)
  else if (key_states.length : ℤ) < (governingCap cfg co - cfg.window_size) * 2 then
    compressBranch e scale negInf cfg (governingCap cfg co)
      (governingCap cfg co - cfg.window_size) key_states query_states value_states
  else
    compressBranch e scale negInf cfg (governingCap cfg co)
      (layerBudget (governingCap cfg co) cfg.window_size cfg.beta cfg.num_hidden_layers
        cfg.layer_idx key_states.length)
      key_states query_states value_states

/-- The pooling kinds the source supports (anything else raises `ValueError`). -/
def SupportedPooling (cfg : Cfg) : Prop :=
  cfg.pooling = "avgpool" ∨ cfg.pooling = "maxpool"

/-- A valid configuration per the spec's construction contract (§6):
depth at least 2, `beta ≥ 1`, a nonempty window, a layer index inside the
network, an odd pooling kernel and a supported pooling kind. -/
def ValidCfg (cfg : Cfg) : Prop :=
  2 ≤ cfg.num_hidden_layers ∧ 1 ≤ cfg.beta ∧ 1 ≤ cfg.window_size ∧
  0 ≤ cfg.layer_idx ∧ cfg.layer_idx ≤ cfg.num_hidden_layers - 1 ∧
  cfg.kernel_size % 2 = 1 ∧ SupportedPooling cfg

/-- The claims' description of the smoothed score at position `p`: the sum of
the raw scores at positions within `kernel_size / 2` of `p` (out-of-range
positions contributing `0`), divided by the full `kernel_size`. -/
def specPoolAvg (k : ℕ) (x : List ℚ) (p : ℕ) : ℚ :=
  (((List.range x.length).filter
      (fun j => decide (p ≤ j + k / 2) && decide (j ≤ p + k / 2))).map
    (fun j => x.getD j 0)).sum / k

/-- Spec-side description of window query row `i`: the scaled dot-product
scores of the `i`-th window query against every key position, where within the
window block the positions later than `i` are masked (shifted by the mask
constant `negInf`, the embedding of the dtype's `-∞` stand-in) and all
historical (pre-window) positions are left unmasked. -/
def specRow (scale negInf : ℚ) (keys queries : List Vec) (ws i : ℕ) : List ℚ :=
  (List.range keys.length).map fun j =>
    if keys.length - ws ≤ j ∧ keys.length - ws + i < j then
      dot (queries.getD (queries.length - ws + i) []) (keys.getD j []) * scale + negInf
    else
      dot (queries.getD (queries.length - ws + i) []) (keys.getD j []) * scale

/-- Spec-side importance score of historical position `h`: the sum, over the
`window_size` trailing query rows `i`, of the row-`i` softmax over all key
positions evaluated at `j = h`. -/
def specImportance (e : ℚ → ℚ) (scale negInf : ℚ) (keys queries : List Vec)
    (ws h : ℕ) : ℚ :=
  ((List.range ws).map fun i =>
    (softmaxRow e (specRow scale negInf keys queries ws i)).getD h 0).sum

/-! ## Basic facts about the list primitives -/

theorem lastN_length {α : Type*} (n : ℕ) (l : List α) (h : n ≤ l.length) :
    (lastN n l).length = n := by
  simp [lastN]; omega

theorem lastN_of_length_le {α : Type*} (n : ℕ) (l : List α) (h : l.length ≤ n) :
    lastN n l = l := by
  simp [lastN, Nat.sub_eq_zero_of_le h]

theorem lastN_append {α : Type*} (l₁ l₂ : List α) (n : ℕ) (h : l₂.length = n) :
    lastN n (l₁ ++ l₂) = l₂ := by
  have : (l₁ ++ l₂).length - n = l₁.length := by simp [h]
  rw [lastN, this, List.drop_left]

theorem dropLastN_length {α : Type*} (n : ℕ) (l : List α) :
    (dropLastN n l).length = l.length - n := by
  simp [dropLastN]

theorem gatherIdx_length (idx : List ℕ) (l : List Vec) :
    (gatherIdx idx l).length = idx.length := by
  simp [gatherIdx]

theorem getD_map_range (f : ℕ → ℚ) (n i : ℕ) (h : i < n) :
    ((List.range n).map f).getD i 0 = f i := by
  rw [List.getD_eq_getElem _ _ (by simpa), List.getElem_map, List.getElem_range]

theorem getD_take (x : List ℚ) (n i : ℕ) (h : i < n) :
    (x.take n).getD i 0 = x.getD i 0 := by
  cases Nat.lt_or_ge i x.length with
  | inl hi =>
    rw [List.getD_eq_getElem _ _ (by simp; omega), List.getD_eq_getElem _ _ hi]
    exact List.getElem_take x
  | inr hi =>
    rw [List.getD_eq_default _ _ (by simp; omega), List.getD_eq_default _ _ hi]

theorem sum_map_range (n : ℕ) (f : ℕ → ℚ) :
    ((List.range n).map f).sum = ∑ i in Finset.range n, f i := by
  induction n with
  | zero => simp
  | succ m ih =>
    rw [List.range_succ, Finset.sum_range_succ, List.map_append, List.sum_append, ih]
    simp

theorem idxMap_length {α β : Type*} (f : ℕ → α → β) (l : List α) :
    (idxMap f l).length = l.length := by
  simp [idxMap]

theorem idxMap_getElem {α β : Type*} (f : ℕ → α → β) (l : List α) (i : ℕ)
    (h : i < (idxMap f l).length) :
    (idxMap f l)[i] = f i (l.get ⟨i, by simpa [idxMap_length] using h⟩) := by
  simp only [idxMap, List.get_eq_getElem, List.getElem_map, List.getElem_zip,
    List.getElem_range]

theorem colSums_length (w : ℕ) (rows : List (List ℚ)) : (colSums w rows).length = w := by
  simp [colSums]

theorem colSums_getD (w : ℕ) (rows : List (List ℚ)) (j : ℕ) (h : j < w) :
    (colSums w rows).getD j 0 = (rows.map fun r => r.getD j 0).sum :=
  getD_map_range _ w j h

/-! ## Lengths of the component outputs -/

theorem avgPool1d_length (k pad : ℕ) (x : List ℚ) :
    (avgPool1d k pad x).length = x.length + 2 * pad + 1 - k := by
  simp [avgPool1d]

theorem maxPool1d_length (k pad : ℕ) (x : List ℚ) :
    (maxPool1d k pad x).length = x.length + 2 * pad + 1 - k := by
  simp [maxPool1d]

theorem attnWeightsSum_length (e : ℚ → ℚ) (scale negInf : ℚ) (ws : ℕ)
    (keys queries : List Vec) :
    (attnWeightsSum e scale negInf ws keys queries).length = keys.length - ws := by
  simp [attnWeightsSum, colSums_length]

/-- With a supported pooling kind, an odd kernel and a nonempty score vector,
the smoother succeeds and preserves the score length. -/
theorem pooledScores_of_valid (cfg : Cfg) (s : List ℚ)
    (hk : cfg.kernel_size % 2 = 1) (hp : SupportedPooling cfg) (hs : 1 ≤ s.length) :
    ∃ c, pooledScores cfg s = some c ∧ c.length = s.length := by
  have hguard : ¬(cfg.kernel_size = 0 ∨
      s.length + 2 * (cfg.kernel_size / 2) < cfg.kernel_size) := by omega
  have hlen : s.length + 2 * (cfg.kernel_size / 2) + 1 - cfg.kernel_size = s.length := by
    omega
  rcases hp with hp | hp
  · exact ⟨_, by rw [pooledScores, if_neg hguard, if_pos hp], by
      rw [avgPool1d_length, hlen]⟩
  · refine ⟨_, ?_, by rw [maxPool1d_length, hlen]⟩
    rw [pooledScores, if_neg hguard]
    by_cases havg : cfg.pooling = "avgpool"
    · exact absurd (havg.symm.trans hp) (by decide)
    · rw [if_neg havg, if_pos hp]

/-! ## The selector: top-k indices are distinct, in range, and sorted -/

theorem topkIndices_nodup (k : ℕ) (s : List ℚ) : (topkIndices k s).Nodup :=
  (List.take_sublist _ _).nodup
    ((List.perm_insertionSort _ _).nodup_iff.mpr (List.nodup_range _))

theorem mem_topkIndices_lt (k : ℕ) (s : List ℚ) (i : ℕ) (h : i ∈ topkIndices k s) :
    i < s.length := by
  have h1 : i ∈ List.insertionSort (topkRel s) (List.range s.length) :=
    (List.take_sublist _ _).mem h
  have h2 : i ∈ List.range s.length := (List.perm_insertionSort _ _).mem_iff.mp h1
  exact List.mem_range.mp h2

theorem topkIndices_length (k : ℕ) (s : List ℚ) :
    (topkIndices k s).length = min k s.length := by
  rw [topkIndices, List.length_take, (List.perm_insertionSort _ _).length_eq,
    List.length_range]

theorem sortedTopk_perm (k : ℕ) (s : List ℚ) :
    List.Perm (sortedTopk k s) (topkIndices k s) :=
  List.perm_insertionSort _ _

theorem sortedTopk_nodup (k : ℕ) (s : List ℚ) : (sortedTopk k s).Nodup :=
  (sortedTopk_perm k s).nodup_iff.mpr (topkIndices_nodup k s)

theorem sortedTopk_length (k : ℕ) (s : List ℚ) :
    (sortedTopk k s).length = min k s.length := by
  rw [(sortedTopk_perm k s).length_eq, topkIndices_length]

theorem mem_sortedTopk_lt (k : ℕ) (s : List ℚ) (i : ℕ) (h : i ∈ sortedTopk k s) :
    i < s.length :=
  mem_topkIndices_lt k s i ((sortedTopk_perm k s).mem_iff.mp h)

theorem sortedTopk_sorted (k : ℕ) (s : List ℚ) :
    List.Sorted (· ≤ ·) (sortedTopk k s) :=
  List.sorted_insertionSort _ _

theorem sortedTopk_strict_mono (k : ℕ) (s : List ℚ) :
    List.Pairwise (· < ·) (sortedTopk k s) :=
  ((sortedTopk_sorted k s).and (sortedTopk_nodup k s)).imp
    (fun h => lt_of_le_of_ne h.1 h.2)

/-! ## Structural characterisation of `update_kv` -/

/-- The passthrough regime: `q_len < current_max_capacity` returns the inputs
unchanged (provided the scheduler divisions do not raise first). -/
theorem update_kv_passthrough (e : ℚ → ℚ) (scale negInf : ℚ) (cfg : Cfg)
    (ks qs vs : List Vec) (co : Option ℤ)
    (hlen : ks.length = qs.length)
    (hbeta : cfg.beta ≠ 0) (hnhl : cfg.num_hidden_layers ≠ 1)
    (hq : (ks.length : ℤ) < governingCap cfg co) :
    update_kv e scale negInf cfg ks qs vs co = some (ks, vs) := by
  rw [update_kv, if_neg (by omega), if_neg (by tauto), if_pos hq]

/-- In the moderate regime the call reduces to the compressing block with
retention count `current_max_capacity - window_size`. -/
theorem update_kv_eq_moderate (e : ℚ → ℚ) (scale negInf : ℚ) (cfg : Cfg)
    (ks qs vs : List Vec) (co : Option ℤ)
    (hlen : ks.length = qs.length)
    (hbeta : cfg.beta ≠ 0) (hnhl : cfg.num_hidden_layers ≠ 1)
    (hq1 : governingCap cfg co ≤ (ks.length : ℤ))
    (hq2 : (ks.length : ℤ) < (governingCap cfg co - cfg.window_size) * 2) :
    update_kv e scale negInf cfg ks qs vs co =
      compressBranch e scale negInf cfg (governingCap cfg co)
        (governingCap cfg co - cfg.window_size) ks qs vs := by
  rw [update_kv, if_neg (by omega), if_neg (by tauto), if_neg (by omega), if_pos hq2]

/-- In the aggressive regime the call reduces to the compressing block with
the scheduler's per-layer budget as retention count. -/
theorem update_kv_eq_aggressive (e : ℚ → ℚ) (scale negInf : ℚ) (cfg : Cfg)
    (ks qs vs : List Vec) (co : Option ℤ)
    (hlen : ks.length = qs.length)
    (hbeta : cfg.beta ≠ 0) (hnhl : cfg.num_hidden_layers ≠ 1)
    (hq1 : governingCap cfg co ≤ (ks.length : ℤ))
    (hq2 : (governingCap cfg co - cfg.window_size) * 2 ≤ (ks.length : ℤ)) :
    update_kv e scale negInf cfg ks qs vs co =
      compressBranch e scale negInf cfg (governingCap cfg co)
        (layerBudget (governingCap cfg co) cfg.window_size cfg.beta
          cfg.num_hidden_layers cfg.layer_idx ks.length) ks qs vs := by
  rw [update_kv, if_neg (by omega), if_neg (by tauto), if_neg (by omega),
    if_neg (by omega)]

/-- The degenerate window-only policy: when the governing capacity is at most
the window size (and the scoring pipeline itself does not raise), the
compressing block truncates to the trailing `window_size` positions. -/
theorem compressBranch_degenerate (e : ℚ → ℚ) (scale negInf : ℚ) (cfg : Cfg)
    (cmc kSel : ℤ) (keys queries values : List Vec)
    (hk : cfg.kernel_size % 2 = 1) (hp : SupportedPooling cfg)
    (hhist : cfg.window_size < keys.length)
    (hcw : cmc ≤ (cfg.window_size : ℤ)) :
    compressBranch e scale negInf cfg cmc kSel keys queries values =
      some (lastN cfg.window_size keys, lastN cfg.window_size values) := by
  obtain ⟨cache, hcache, -⟩ := pooledScores_of_valid cfg
    (attnWeightsSum e scale negInf cfg.window_size keys queries) hk hp
    (by rw [attnWeightsSum_length]; omega)
  rw [compressBranch, if_neg (by omega), hcache]
  dsimp only
  rw [if_pos hcw]

/-- The main compressing path: capacity above the window, nonnegative retention
count.  The output is the gathered top-k history followed by the window. -/
theorem compressBranch_compress (e : ℚ → ℚ) (scale negInf : ℚ) (cfg : Cfg)
    (cmc kSel : ℤ) (keys queries values : List Vec)
    (hk : cfg.kernel_size % 2 = 1) (hp : SupportedPooling cfg)
    (hhist : cfg.window_size < keys.length)
    (hcw : (cfg.window_size : ℤ) < cmc)
    (hksel : 0 ≤ kSel) :
    ∃ cache,
      pooledScores cfg (attnWeightsSum e scale negInf cfg.window_size keys queries) =
        some cache ∧
      cache.length = keys.length - cfg.window_size ∧
      compressBranch e scale negInf cfg cmc kSel keys queries values =
        some (gatherIdx (sortedTopk (min kSel (cache.length : ℤ)).toNat cache)
                (dropLastN cfg.window_size keys) ++ lastN cfg.window_size keys,
              gatherIdx (sortedTopk (min kSel (cache.length : ℤ)).toNat cache)
                (dropLastN cfg.window_size values) ++ lastN cfg.window_size values) := by
  obtain ⟨cache, hcache, hclen⟩ := pooledScores_of_valid cfg
    (attnWeightsSum e scale negInf cfg.window_size keys queries) hk hp
    (by rw [attnWeightsSum_length]; omega)
  rw [attnWeightsSum_length] at hclen
  refine ⟨cache, hcache, hclen, ?_⟩
  have hall : (sortedTopk (min kSel (cache.length : ℤ)).toNat cache).all
      (fun i => decide (i < keys.length - cfg.window_size)) = true :=
    List.all_eq_true.mpr fun i hi =>
      decide_eq_true (hclen ▸ mem_sortedTopk_lt _ cache i hi)
  rw [compressBranch, if_neg (by omega), hcache]
  dsimp only
  rw [if_neg (not_le.mpr hcw),
    if_neg (not_lt.mpr (le_min hksel (Int.natCast_nonneg _))), if_pos hall]

/-- Every normal return of the compressing block ends, positionally, with the
unmodified trailing window of the inputs. -/
theorem compressBranch_window (e : ℚ → ℚ) (scale negInf : ℚ) (cfg : Cfg)
    (cmc kSel : ℤ) (keys queries values : List Vec) (out : List Vec × List Vec)
    (hvlen : values.length = keys.length)
    (h : compressBranch e scale negInf cfg cmc kSel keys queries values = some out) :
    lastN cfg.window_size out.1 = lastN cfg.window_size keys ∧
    lastN cfg.window_size out.2 = lastN cfg.window_size values := by
  unfold compressBranch at h
  split at h
  · exact absurd h (by simp)
  · next hws =>
    have hws' : cfg.window_size ≤ keys.length := by omega
    have hwq : (lastN cfg.window_size keys).length = cfg.window_size :=
      lastN_length _ _ hws'
    have hwv : (lastN cfg.window_size values).length = cfg.window_size :=
      lastN_length _ _ (by omega)
    split at h
    · exact absurd h (by simp)
    · next cache hcache =>
      split at h
      · rw [Option.some_inj] at h
        subst h
        exact ⟨lastN_of_length_le _ _ (le_of_eq hwq),
          lastN_of_length_le _ _ (le_of_eq hwv)⟩
      · split at h
        · exact absurd h (by simp)
        · split at h
          · rw [Option.some_inj] at h
            subst h
            exact ⟨lastN_append _ _ _ hwq, lastN_append _ _ _ hwv⟩
          · exact absurd h (by simp)

/-! ## The capacity scheduler -/

theorem schedMinMax_bounds (cmc ws beta qlen : ℤ) (hbeta : 1 ≤ beta)
    (hcw : ws < cmc) (hq : cmc ≤ qlen) :
    0 ≤ (schedMinMax cmc ws beta qlen).2 ∧
    (schedMinMax cmc ws beta qlen).2 ≤ (schedMinMax cmc ws beta qlen).1 := by
  have hA : (0 : ℤ) ≤ cmc - ws := by omega
  have hfd : Int.fdiv (cmc - ws) beta = (cmc - ws) / beta :=
    Int.fdiv_eq_ediv _ (by omega)
  have h1 : 0 ≤ (cmc - ws) / beta := Int.ediv_nonneg hA (by omega)
  have h2 : (cmc - ws) / beta ≤ cmc - ws := Int.ediv_le_self _ hA
  simp only [schedMinMax, hfd]
  split
  · next hcase => constructor <;> dsimp only <;> omega
  · next hcase => constructor <;> dsimp only <;> omega

theorem schedSteps_nonneg (cmc ws beta nhl qlen : ℤ) (hbeta : 1 ≤ beta)
    (hcw : ws < cmc) (hq : cmc ≤ qlen) (hnhl : 2 ≤ nhl) :
    0 ≤ schedSteps cmc ws beta nhl qlen := by
  obtain ⟨h0, hle⟩ := schedMinMax_bounds cmc ws beta qlen hbeta hcw hq
  exact Int.fdiv_nonneg (by omega) (by omega)

theorem schedSteps_mul_le (cmc ws beta nhl qlen : ℤ) (hbeta : 1 ≤ beta)
    (hcw : ws < cmc) (hq : cmc ≤ qlen) (hnhl : 2 ≤ nhl) :
    (nhl - 1) * schedSteps cmc ws beta nhl qlen ≤
      (schedMinMax cmc ws beta qlen).1 - (schedMinMax cmc ws beta qlen).2 := by
  obtain ⟨h0, hle⟩ := schedMinMax_bounds cmc ws beta qlen hbeta hcw hq
  rw [schedSteps, Int.fdiv_eq_ediv _ (by omega)]
  have hmod : 0 ≤ ((schedMinMax cmc ws beta qlen).1 - (schedMinMax cmc ws beta qlen).2)
      % (nhl - 1) := Int.emod_nonneg _ (by omega)
  have := Int.ediv_add_emod
    ((schedMinMax cmc ws beta qlen).1 - (schedMinMax cmc ws beta qlen).2) (nhl - 1)
  omega

/-- The pyramid shape: the per-layer budget never increases with depth. -/
theorem layerBudget_antitone (cmc ws beta nhl qlen li₁ li₂ : ℤ) (hbeta : 1 ≤ beta)
    (hcw : ws < cmc) (hq : cmc ≤ qlen) (hnhl : 2 ≤ nhl) (hli : li₁ ≤ li₂) :
    layerBudget cmc ws beta nhl li₂ qlen ≤ layerBudget cmc ws beta nhl li₁ qlen := by
  have hsteps := schedSteps_nonneg cmc ws beta nhl qlen hbeta hcw hq hnhl
  have := mul_le_mul_of_nonneg_right hli hsteps
  unfold layerBudget
  omega

/-- Inside a valid network the per-layer budget is never negative. -/
theorem layerBudget_nonneg (cmc ws beta nhl qlen li : ℤ) (hbeta : 1 ≤ beta)
    (hcw : ws < cmc) (hq : cmc ≤ qlen) (hnhl : 2 ≤ nhl)
    (hli0 : 0 ≤ li) (hli1 : li ≤ nhl - 1) :
    0 ≤ layerBudget cmc ws beta nhl li qlen := by
  obtain ⟨h0, hle⟩ := schedMinMax_bounds cmc ws beta qlen hbeta hcw hq
  have hsteps := schedSteps_nonneg cmc ws beta nhl qlen hbeta hcw hq hnhl
  have hmul := schedSteps_mul_le cmc ws beta nhl qlen hbeta hcw hq hnhl
  have := mul_le_mul_of_nonneg_right hli1 hsteps
  unfold layerBudget
  omega

/-! ## Output lengths of the compressing branches -/

/-- Sequence length of the compressing block's output: the retention count
(capped at the available history) plus the full window. -/
theorem compressBranch_length (e : ℚ → ℚ) (scale negInf : ℚ) (cfg : Cfg)
    (cmc kSel : ℤ) (keys queries values : List Vec)
    (hk : cfg.kernel_size % 2 = 1) (hp : SupportedPooling cfg)
    (hvlen : values.length = keys.length)
    (hhist : cfg.window_size < keys.length)
    (hcw : (cfg.window_size : ℤ) < cmc)
    (hksel : 0 ≤ kSel) :
    (compressBranch e scale negInf cfg cmc kSel keys queries values).map
      (fun p => ((p.1.length : ℤ), (p.2.length : ℤ))) =
    some (min kSel ((keys.length : ℤ) - cfg.window_size) + cfg.window_size,
          min kSel ((keys.length : ℤ) - cfg.window_size) + cfg.window_size) := by
  obtain ⟨cache, hcache, hclen, heq⟩ := compressBranch_compress e scale negInf cfg
    cmc kSel keys queries values hk hp hhist hcw hksel
  rw [heq]
  simp only [Option.map_some']
  have hlen1 : (gatherIdx (sortedTopk (min kSel (cache.length : ℤ)).toNat cache)
      (dropLastN cfg.window_size keys) ++ lastN cfg.window_size keys).length =
      min (min kSel (cache.length : ℤ)).toNat cache.length + cfg.window_size := by
    rw [List.length_append, gatherIdx_length, sortedTopk_length,
      lastN_length _ _ (by omega)]
  have hlen2 : (gatherIdx (sortedTopk (min kSel (cache.length : ℤ)).toNat cache)
      (dropLastN cfg.window_size values) ++ lastN cfg.window_size values).length =
      min (min kSel (cache.length : ℤ)).toNat cache.length + cfg.window_size := by
    rw [List.length_append, gatherIdx_length, sortedTopk_length,
      lastN_length _ _ (by omega)]
  rw [Option.some_inj, Prod.mk.injEq]
  refine ⟨?_, ?_⟩
  · dsimp only
    rw [hlen1]
    omega
  · dsimp only
    rw [hlen2]
    omega

/-- Moderate regime, capacity above the window: the output length is exactly
the governing capacity, for every layer. -/
theorem update_kv_moderate_length (e : ℚ → ℚ) (scale negInf : ℚ) (cfg : Cfg)
    (ks qs vs : List Vec) (co : Option ℤ)
    (hv : ValidCfg cfg) (hlen : ks.length = qs.length) (hvlen : vs.length = ks.length)
    (hcw : (cfg.window_size : ℤ) < governingCap cfg co)
    (hq1 : governingCap cfg co ≤ (ks.length : ℤ))
    (hq2 : (ks.length : ℤ) < (governingCap cfg co - cfg.window_size) * 2) :
    (update_kv e scale negInf cfg ks qs vs co).map
      (fun p => ((p.1.length : ℤ), (p.2.length : ℤ))) =
    some (governingCap cfg co, governingCap cfg co) := by
  obtain ⟨hnhl, hbeta, hws, hli0, hli1, hker, hpool⟩ := hv
  rw [update_kv_eq_moderate e scale negInf cfg ks qs vs co hlen (by omega) (by omega)
      hq1 hq2,
    compressBranch_length e scale negInf cfg _ _ ks qs vs hker hpool hvlen (by omega)
      hcw (by omega)]
  rw [Option.some_inj, Prod.mk.injEq]
  constructor <;> omega

/-- Aggressive regime, capacity above the window: the output length is exactly
the layer budget (capped at the available history) plus the window size. -/
theorem update_kv_aggressive_length (e : ℚ → ℚ) (scale negInf : ℚ) (cfg : Cfg)
    (ks qs vs : List Vec) (co : Option ℤ)
    (hv : ValidCfg cfg) (hlen : ks.length = qs.length) (hvlen : vs.length = ks.length)
    (hcw : (cfg.window_size : ℤ) < governingCap cfg co)
    (hq1 : governingCap cfg co ≤ (ks.length : ℤ))
    (hq2 : (governingCap cfg co - cfg.window_size) * 2 ≤ (ks.length : ℤ)) :
    (update_kv e scale negInf cfg ks qs vs co).map
      (fun p => ((p.1.length : ℤ), (p.2.length : ℤ))) =
    some (min (layerBudget (governingCap cfg co) cfg.window_size cfg.beta
            cfg.num_hidden_layers cfg.layer_idx ks.length)
            ((ks.length : ℤ) - cfg.window_size) + cfg.window_size,
          min (layerBudget (governingCap cfg co) cfg.window_size cfg.beta
            cfg.num_hidden_layers cfg.layer_idx ks.length)
            ((ks.length : ℤ) - cfg.window_size) + cfg.window_size) := by
  obtain ⟨hnhl, hbeta, hws, hli0, hli1, hker, hpool⟩ := hv
  have hlb : 0 ≤ layerBudget (governingCap cfg co) cfg.window_size cfg.beta
      cfg.num_hidden_layers cfg.layer_idx ks.length :=
    layerBudget_nonneg _ _ _ _ _ _ hbeta hcw hq1 hnhl hli0 hli1
  rw [update_kv_eq_aggressive e scale negInf cfg ks qs vs co hlen (by omega) (by omega)
      hq1 hq2,
    compressBranch_length e scale negInf cfg _ _ ks qs vs hker hpool hvlen (by omega)
      hcw hlb]

/-! ## Pointwise description of average pooling (zero padding included) -/

theorem getD_zeros (n i : ℕ) : (List.replicate n (0 : ℚ)).getD i 0 = 0 := by
  cases Nat.lt_or_ge i n with
  | inl h =>
    rw [List.getD_eq_getElem _ _ (by simpa), List.getElem_replicate 0]
  | inr h => rw [List.getD_eq_default _ _ (by simpa)]

theorem getD_append_left (l₁ l₂ : List ℚ) (i : ℕ) (h : i < l₁.length) :
    (l₁ ++ l₂).getD i 0 = l₁.getD i 0 := by
  rw [List.getD_eq_getElem _ _ (by simp; omega), List.getD_eq_getElem _ _ h,
    List.getElem_append_left]

theorem getD_append_right (l₁ l₂ : List ℚ) (i : ℕ) (h : l₁.length ≤ i) :
    (l₁ ++ l₂).getD i 0 = l₂.getD (i - l₁.length) 0 := by
  cases Nat.lt_or_ge (i - l₁.length) l₂.length with
  | inl h2 =>
    rw [List.getD_eq_getElem _ _ (by simp; omega), List.getD_eq_getElem _ _ h2,
      List.getElem_append_right h]
  | inr h2 =>
    rw [List.getD_eq_default _ _ (by simp; omega), List.getD_eq_default _ _ h2]

/-- Reading the zero-padded input of `avg_pool1d` at an absolute offset. -/
theorem padded_getD (pad : ℕ) (x : List ℚ) (t : ℕ) :
    (List.replicate pad (0 : ℚ) ++ x ++ List.replicate pad 0).getD t 0 =
      if t < pad then 0 else x.getD (t - pad) 0 := by
  rw [List.append_assoc]
  split
  · next h =>
    rw [getD_append_left _ _ _ (by simpa), getD_zeros]
  · next h =>
    rw [getD_append_right _ _ _ (by simp; omega), List.length_replicate]
    cases Nat.lt_or_ge (t - pad) x.length with
    | inl h2 => rw [getD_append_left _ _ _ h2]
    | inr h2 =>
      rw [getD_append_right _ _ _ h2, getD_zeros, List.getD_eq_default _ _ h2]

/-- A contiguous window of a list, as a sum over offsets. -/
theorem sum_take_drop (l : List ℚ) (p k : ℕ) (h : p + k ≤ l.length) :
    ((l.drop p).take k).sum = ((List.range k).map fun t => l.getD (p + t) 0).sum := by
  have heq : (l.drop p).take k = (List.range k).map fun t => l.getD (p + t) 0 := by
    apply List.ext_getElem
    · simp; omega
    · intro i h1 h2
      simp only [List.length_take, List.length_drop, List.length_map,
        List.length_range] at h1 h2
      rw [List.getElem_take, List.getElem_drop, List.getElem_map, List.getElem_range,
        List.getD_eq_getElem _ _ (by omega)]
  rw [heq]

/-- List-level analogue of `Finset.sum_filter`. -/
theorem sum_map_filter (l : List ℕ) (q : ℕ → Bool) (f : ℕ → ℚ) :
    ((l.filter q).map f).sum = (l.map fun j => if q j then f j else 0).sum := by
  induction l with
  | nil => simp
  | cons a t ih =>
    by_cases h : q a <;> simp [List.filter_cons, h, ih]

/-- Average pooling with zero padding, pointwise: every output is the sum of
the in-range inputs within `k / 2` of the position, divided by the full kernel
size `k` — the padding zeros count toward the average at the boundaries. -/
theorem avgPool1d_getD_spec (k : ℕ) (x : List ℚ) (p : ℕ)
    (hk : k % 2 = 1) (hp : p < x.length) :
    (avgPool1d k (k / 2) x).getD p 0 = specPoolAvg k x p := by
  have hkpos : 1 ≤ k := by omega
  have hpad : 2 * (k / 2) = k - 1 := by omega
  set pad := k / 2 with hpaddef
  set L := x.length with hLdef
  have hlen : L + 2 * pad + 1 - k = L := by omega
  -- the padded input and its length
  set padded := List.replicate pad (0 : ℚ) ++ x ++ List.replicate pad 0 with hpadded
  have hplen : padded.length = L + 2 * pad := by
    simp [hpadded]; omega
  -- reduce the left side to a window sum over the padded list
  rw [avgPool1d, hlen, getD_map_range _ _ _ hp, ← hpadded]
  have hwin : p + k ≤ padded.length := by omega
  rw [sum_take_drop padded p k hwin]
  -- both sides as `Finset.range` sums
  rw [specPoolAvg, sum_map_filter, sum_map_range, sum_map_range, ← hLdef]
  congr 1
  -- rewrite each summand of the left side through the padding description
  have hterm : ∀ t, padded.getD (p + t) 0 =
      if pad ≤ p + t then x.getD (p + t - pad) 0 else 0 := by
    intro t
    rw [hpadded, padded_getD]
    split
    · next h => rw [if_neg (by omega)]
    · next h => rw [if_pos (by omega)]
  rw [Finset.sum_congr rfl fun t _ => hterm t, ← Finset.sum_filter]
  -- drop the out-of-range (zero) summands of the left side
  rw [← Finset.sum_filter_add_sum_filter_not
    ((Finset.range k).filter fun t => pad ≤ p + t) (fun t => p + t - pad < L)]
  have hz : ∑ t in ((Finset.range k).filter fun t => pad ≤ p + t).filter
      (fun t => ¬ p + t - pad < L), x.getD (p + t - pad) 0 = 0 := by
    apply Finset.sum_eq_zero
    intro t ht
    simp only [Finset.mem_filter, Finset.mem_range] at ht
    exact List.getD_eq_default _ _ (by omega)
  rw [hz, add_zero, Finset.filter_filter]
  -- simplify the right side's decidable conjunction and move it into a filter
  rw [show k / 2 = pad from rfl]
  have hcond : ∀ j, (if (decide (p ≤ j + pad) && decide (j ≤ p + pad)) = true
      then x.getD j 0 else 0) = if p ≤ j + pad ∧ j ≤ p + pad then x.getD j 0 else 0 := by
    intro j
    simp only [Bool.and_eq_true, decide_eq_true_eq]
  rw [Finset.sum_congr rfl fun j _ => hcond j, ← Finset.sum_filter]
  -- reindex the surviving window offsets to absolute positions
  refine Finset.sum_nbij' (fun t => p + t - pad) (fun j => j + pad - p) ?_ ?_ ?_ ?_ ?_
  · intro t ht
    simp only [Finset.mem_filter, Finset.mem_range] at ht ⊢
    omega
  · intro j hj
    simp only [Finset.mem_filter, Finset.mem_range] at hj ⊢
    omega
  · intro t ht
    simp only [Finset.mem_filter, Finset.mem_range] at ht
    dsimp only
    omega
  · intro j hj
    simp only [Finset.mem_filter, Finset.mem_range] at hj
    dsimp only
    omega
  · intro t ht
    rfl

/-! ## Pointwise description of the importance estimator -/

/-- The masked score matrix built by the code (matmul, then in-place mask
addition) coincides, row by row, with the spec's row description. -/
theorem maskedScores_eq_specRows (scale negInf : ℚ) (keys queries : List Vec)
    (ws : ℕ) (hq : queries.length = keys.length) (hws : ws ≤ keys.length) :
    addWindowMask negInf (keys.length - ws) (rawScores scale ws keys queries) =
      (List.range ws).map fun i => specRow scale negInf keys queries ws i := by
  have hlq : (lastN ws queries).length = ws := lastN_length _ _ (by omega)
  apply List.ext_getElem
  · simp [idxMap_length, addWindowMask, rawScores, hlq]
  · intro i h1 h2
    have hi : i < ws := by
      simpa [addWindowMask, idxMap_length, rawScores, hlq] using h1
    apply List.ext_getElem
    · simp [addWindowMask, idxMap_getElem, idxMap_length, rawScores, specRow, lastN,
        List.get_eq_getElem, List.length_map, List.length_range, List.length_drop]
    · intro j hj1 hj2
      have hjk : j < keys.length := by
        simpa [addWindowMask, idxMap_getElem, idxMap_length, rawScores,
          List.get_eq_getElem, List.getElem_map, List.length_map] using hj1
      simp only [addWindowMask, rawScores, specRow, lastN, idxMap_getElem,
        List.get_eq_getElem, List.getElem_map, List.getElem_range, List.getElem_drop]
      rw [List.getD_eq_getElem queries [] (by omega),
        List.getD_eq_getElem keys [] (by omega)]
      by_cases hcond : keys.length - ws + i < j
      · rw [if_pos hcond, if_pos ⟨by omega, hcond⟩]
      · rw [if_neg hcond, if_neg (by tauto)]

/-- The code's summed softmax mass at a historical position equals the spec's
per-position importance formula. -/
theorem attnWeightsSum_eq_specImportance (e : ℚ → ℚ) (scale negInf : ℚ)
    (keys queries : List Vec) (ws h : ℕ)
    (hq : queries.length = keys.length) (hws : ws ≤ keys.length)
    (hh : h < keys.length - ws) :
    (attnWeightsSum e scale negInf ws keys queries).getD h 0 =
      specImportance e scale negInf keys queries ws h := by
  rw [attnWeightsSum, colSums_getD _ _ _ hh, attnWeights,
    maskedScores_eq_specRows scale negInf keys queries ws hq hws,
    List.map_map, List.map_map, List.map_map]
  rw [specImportance]
  congr 1
  apply List.map_congr_left
  intro i hi
  simp only [Function.comp_apply]
  exact getD_take _ _ _ hh

/-- When the retention count covers all scores, top-k selection followed by
the ascending sort returns every index in order. -/
theorem sortedTopk_of_le (k : ℕ) (s : List ℚ) (h : s.length ≤ k) :
    sortedTopk k s = List.range s.length := by
  have hperm : List.Perm (sortedTopk k s) (List.range s.length) := by
    refine (sortedTopk_perm k s).trans ?_
    rw [topkIndices, List.take_of_length_le
      (by rw [(List.perm_insertionSort _ _).length_eq, List.length_range]; exact h)]
    exact List.perm_insertionSort _ _
  exact List.eq_of_perm_of_sorted hperm (sortedTopk_sorted k s)
    ((List.pairwise_lt_range _).imp le_of_lt)

/-- Gathering every index in order is the identity. -/
theorem gatherIdx_range (l : List Vec) : gatherIdx (List.range l.length) l = l := by
  apply List.ext_getElem
  · simp [gatherIdx_length]
  · intro i h1 h2
    simp only [gatherIdx, List.getElem_map, List.getElem_range]
    exact List.getD_eq_getElem l [] h2

/-- The history slice followed by the window slice is the whole cache. -/
theorem dropLastN_append_lastN {α : Type*} (n : ℕ) (l : List α) :
    dropLastN n l ++ lastN n l = l :=
  List.take_append_drop _ l

/-- A moderate-regime call whose length equals the governing capacity keeps
every historical position (top-k degenerates to "all"), so the output is the
input itself.  Used to exhibit concrete compressing calls without evaluating
rational arithmetic. -/
theorem update_kv_keep_all (e : ℚ → ℚ) (scale negInf : ℚ) (cfg : Cfg)
    (ks qs vs : List Vec) (co : Option ℤ)
    (hv : ValidCfg cfg) (hlen : ks.length = qs.length) (hvlen : vs.length = ks.length)
    (hcw : (cfg.window_size : ℤ) < governingCap cfg co)
    (hq1 : governingCap cfg co = (ks.length : ℤ))
    (hq2 : (ks.length : ℤ) < (governingCap cfg co - cfg.window_size) * 2) :
    update_kv e scale negInf cfg ks qs vs co = some (ks, vs) := by
  obtain ⟨hnhl, hbeta, hws, hli0, hli1, hker, hpool⟩ := hv
  obtain ⟨cache, hcache, hclen, heq⟩ := compressBranch_compress e scale negInf cfg
    (governingCap cfg co) (governingCap cfg co - cfg.window_size) ks qs vs hker hpool
    (by omega) hcw (by omega)
  rw [update_kv_eq_moderate e scale negInf cfg ks qs vs co hlen (by omega) (by omega)
    (by omega) hq2, heq]
  have hmin : (min (governingCap cfg co - cfg.window_size) (cache.length : ℤ)).toNat =
      cache.length := by omega
  rw [hmin, sortedTopk_of_le _ _ (le_refl _), hclen]
  rw [Option.some_inj, Prod.mk.injEq]
  constructor
  · rw [show ks.length - cfg.window_size = (dropLastN cfg.window_size ks).length from
      (dropLastN_length _ _).symm, gatherIdx_range, dropLastN_append_lastN]
  · rw [show ks.length - cfg.window_size = (dropLastN cfg.window_size vs).length by
      rw [dropLastN_length]; omega, gatherIdx_range, dropLastN_append_lastN]

/-- An unsupported pooling kind makes the smoother raise (`ValueError`). -/
theorem pooledScores_unsupported (cfg : Cfg) (s : List ℚ)
    (h1 : cfg.pooling ≠ "avgpool") (h2 : cfg.pooling ≠ "maxpool") :
    pooledScores cfg s = none := by
  by_cases hg : cfg.kernel_size = 0 ∨
      s.length + 2 * (cfg.kernel_size / 2) < cfg.kernel_size
  · rw [pooledScores, if_pos hg]
  · rw [pooledScores, if_neg hg, if_neg h1, if_neg h2]

/-- An unsupported pooling kind makes the whole compressing block raise, even
when the degenerate window-only truncation would not need the scores. -/
theorem compressBranch_unsupported (e : ℚ → ℚ) (scale negInf : ℚ) (cfg : Cfg)
    (cmc kSel : ℤ) (keys queries values : List Vec)
    (h1 : cfg.pooling ≠ "avgpool") (h2 : cfg.pooling ≠ "maxpool") :
    compressBranch e scale negInf cfg cmc kSel keys queries values = none := by
  rw [compressBranch]
  split
  · rfl
  · rw [pooledScores_unsupported cfg _ h1 h2]

/-! ## Claims -/

/-- C2: for every call to `update_kv` that returns normally, in every regime,
the final `window_size` positions of the output key and value tensors equal,
element for element and in position order, the final `window_size` positions
of the corresponding input tensors. -/
theorem C2_window_preservation (e : ℚ → ℚ) (scale negInf : ℚ) (cfg : Cfg)
    (ks qs vs : List Vec) (co : Option ℤ) (out : List Vec × List Vec)
    (hvlen : vs.length = ks.length)
    (h : update_kv e scale negInf cfg ks qs vs co = some out) :
    lastN cfg.window_size out.1 = lastN cfg.window_size ks ∧
    lastN cfg.window_size out.2 = lastN cfg.window_size vs := by
  unfold update_kv at h
  split at h
  · exact absurd h (by simp)
  · split at h
    · exact absurd h (by simp)
    · split at h
      · rw [Option.some_inj] at h
        subst h
        exact ⟨rfl, rfl⟩
      · split at h
        · exact compressBranch_window e scale negInf cfg _ _ ks qs vs out hvlen h
        · exact compressBranch_window e scale negInf cfg _ _ ks qs vs out hvlen h

/-- C2 witness: a concrete degenerate compressing call (window 2, overridden
capacity 1, three positions) preserves the trailing window. -/
theorem C2_window_preservation_witness :
    lastN 2 (lastN 2 ([[1], [2], [3]] : List Vec)) =
      lastN 2 ([[1], [2], [3]] : List Vec) ∧
    lastN 2 (lastN 2 ([[4], [5], [6]] : List Vec)) =
      lastN 2 ([[4], [5], [6]] : List Vec) :=
  C2_window_preservation (fun _ => 1) 1 (-1000) ⟨2, 2, 5, 1, "avgpool", 1, 0⟩
    [[1], [2], [3]] [[1], [2], [3]] [[4], [5], [6]] (some 1)
    (lastN 2 [[1], [2], [3]], lastN 2 [[4], [5], [6]]) rfl
    ((update_kv_eq_aggressive (fun _ => 1) 1 (-1000) ⟨2, 2, 5, 1, "avgpool", 1, 0⟩
        [[1], [2], [3]] [[1], [2], [3]] [[4], [5], [6]] (some 1) rfl (by decide)
        (by decide) (by decide) (by decide)).trans
      (compressBranch_degenerate (fun _ => 1) 1 (-1000) ⟨2, 2, 5, 1, "avgpool", 1, 0⟩
        _ _ [[1], [2], [3]] [[1], [2], [3]] [[4], [5], [6]] (by decide)
        (Or.inl rfl) (by decide) (by decide)))

/-- C5: for every valid configuration and every input with
`q_len < current_max_capacity`, `update_kv` returns the inputs exactly
unchanged, and a second application to that output is again a no-op. -/
theorem C5_passthrough_idempotent (e : ℚ → ℚ) (scale negInf : ℚ) (cfg : Cfg)
    (ks qs vs : List Vec) (co : Option ℤ)
    (hv : ValidCfg cfg) (hlen : ks.length = qs.length)
    (hq : (ks.length : ℤ) < governingCap cfg co) :
    update_kv e scale negInf cfg ks qs vs co = some (ks, vs) ∧
    (update_kv e scale negInf cfg ks qs vs co).bind
      (fun p => update_kv e scale negInf cfg p.1 qs p.2 co) = some (ks, vs) := by
  obtain ⟨hnhl, hbeta, -, -, -, -, -⟩ := hv
  have h1 : update_kv e scale negInf cfg ks qs vs co = some (ks, vs) :=
    update_kv_passthrough e scale negInf cfg ks qs vs co hlen (by omega) (by omega) hq
  refine ⟨h1, ?_⟩
  rw [h1, Option.some_bind]
  exact update_kv_passthrough e scale negInf cfg ks qs vs co hlen (by omega)
    (by omega) hq

/-- C5 witness: a concrete passthrough call (three positions, capacity 5)
returns the inputs unchanged, twice. -/
theorem C5_passthrough_idempotent_witness :
    update_kv (fun _ => 1) 1 (-1000) ⟨2, 1, 5, 1, "avgpool", 1, 0⟩
      [[1], [2], [3]] [[1], [2], [3]] [[4], [5], [6]] none =
      some ([[1], [2], [3]], [[4], [5], [6]]) ∧
    (update_kv (fun _ => 1) 1 (-1000) ⟨2, 1, 5, 1, "avgpool", 1, 0⟩
      [[1], [2], [3]] [[1], [2], [3]] [[4], [5], [6]] none).bind
      (fun p => update_kv (fun _ => 1) 1 (-1000) ⟨2, 1, 5, 1, "avgpool", 1, 0⟩
        p.1 [[1], [2], [3]] p.2 none) =
      some ([[1], [2], [3]], [[4], [5], [6]]) :=
  C5_passthrough_idempotent (fun _ => 1) 1 (-1000) ⟨2, 1, 5, 1, "avgpool", 1, 0⟩
    [[1], [2], [3]] [[1], [2], [3]] [[4], [5], [6]] none
    ⟨by decide, by decide, by decide, by decide, by decide, by decide, Or.inl rfl⟩
    rfl (by decide)

/-- C6 counterexample: with `num_hidden_layers = 1` even a call in the
passthrough regime (`q_len = 3 < 5 = current_max_capacity`) raises the
scheduler's division by zero instead of returning the input unchanged,
because `steps` is computed before the regime dispatch. -/
theorem C6_counterexample :
    update_kv (fun _ => 1) 1 (-1000) ⟨1, 1, 5, 1, "avgpool", 1, 0⟩
      [[1], [2], [3]] [[1], [2], [3]] [[4], [5], [6]] none = none ∧
    (3 : ℤ) < 5 := ⟨by decide, by decide⟩

/-- C6 (amended): with `num_hidden_layers = 1` every call to `update_kv`
raises the scheduler's division by zero, in all three regimes, because
`steps = (max_num - min_num) // (num_hidden_layers - 1)` is evaluated before
the regime dispatch. -/
theorem C6_single_layer_always_raises (e : ℚ → ℚ) (scale negInf : ℚ) (cfg : Cfg)
    (ks qs vs : List Vec) (co : Option ℤ)
    (h : cfg.num_hidden_layers = 1) :
    update_kv e scale negInf cfg ks qs vs co = none := by
  by_cases hl : ks.length ≠ qs.length
  · rw [update_kv, if_pos hl]
  · rw [update_kv, if_neg hl, if_pos (Or.inr h)]

/-- C6 amended-claim witness: the single-layer failure at a concrete
passthrough-regime input. -/
theorem C6_single_layer_always_raises_witness :
    update_kv (fun _ => 1) 1 (-1000) ⟨1, 1, 5, 1, "avgpool", 1, 0⟩
      [[1], [2], [3]] [[1], [2], [3]] [[4], [5], [6]] none = none :=
  C6_single_layer_always_raises (fun _ => 1) 1 (-1000) ⟨1, 1, 5, 1, "avgpool", 1, 0⟩
    [[1], [2], [3]] [[1], [2], [3]] [[4], [5], [6]] none rfl

/-- C7: for every retention count and score vector, the selected historical
indices are pairwise distinct and, after the sort step, strictly increasing,
so surviving history keeps its chronological order. -/
theorem C7_indices_strictly_increasing (k : ℕ) (s : List ℚ) :
    (sortedTopk k s).Nodup ∧ List.Pairwise (· < ·) (sortedTopk k s) :=
  ⟨sortedTopk_nodup k s, sortedTopk_strict_mono k s⟩

/-- C1 counterexample: an AGGRESSIVE call whose output length (3) strictly
exceeds the governing `layer_budget` (2), because the window is retained on
top of the budget: configuration depth 2, window 1, capacity 3, `q_len = 6`. -/
theorem C1_budget_bound_counterexample :
    (update_kv (fun _ => 1) 1 (-1000) ⟨2, 1, 3, 1, "avgpool", 1, 0⟩
        (List.replicate 6 [1]) (List.replicate 6 [1]) (List.replicate 6 [1])
        none).map (fun p => ((p.1.length : ℤ), (p.2.length : ℤ))) = some (3, 3) ∧
    layerBudget 3 1 1 2 0 6 = 2 ∧ ¬ ((3 : ℤ) ≤ 2) := by
  refine ⟨?_, by decide, by decide⟩
  rw [update_kv_aggressive_length (fun _ => 1) 1 (-1000) ⟨2, 1, 3, 1, "avgpool", 1, 0⟩
      (List.replicate 6 [1]) (List.replicate 6 [1]) (List.replicate 6 [1]) none
      ⟨by decide, by decide, by decide, by decide, by decide, by decide, Or.inl rfl⟩
      rfl rfl (by decide) (by decide) (by decide)]
  decide

/-- C1 (amended): for every valid compressing call with capacity above the
window, the output length never exceeds the input length `q_len`; it is
bounded by `current_max_capacity` in the MODERATE regime, and by
`layer_budget + window_size` (not by `layer_budget` itself) in the AGGRESSIVE
regime. -/
theorem C1_budget_bound_amended (e : ℚ → ℚ) (scale negInf : ℚ) (cfg : Cfg)
    (ks qs vs : List Vec) (co : Option ℤ) (kv : List Vec × List Vec)
    (hv : ValidCfg cfg) (hlen : ks.length = qs.length) (hvlen : vs.length = ks.length)
    (hcw : (cfg.window_size : ℤ) < governingCap cfg co)
    (hq1 : governingCap cfg co ≤ (ks.length : ℤ))
    (hkv : update_kv e scale negInf cfg ks qs vs co = some kv) :
    (kv.1.length : ℤ) ≤ (ks.length : ℤ) ∧ (kv.2.length : ℤ) ≤ (ks.length : ℤ) ∧
    ((ks.length : ℤ) < (governingCap cfg co - cfg.window_size) * 2 →
      (kv.1.length : ℤ) ≤ governingCap cfg co ∧
      (kv.2.length : ℤ) ≤ governingCap cfg co) ∧
    ((governingCap cfg co - cfg.window_size) * 2 ≤ (ks.length : ℤ) →
      (kv.1.length : ℤ) ≤ layerBudget (governingCap cfg co) cfg.window_size cfg.beta
          cfg.num_hidden_layers cfg.layer_idx ks.length + cfg.window_size ∧
      (kv.2.length : ℤ) ≤ layerBudget (governingCap cfg co) cfg.window_size cfg.beta
          cfg.num_hidden_layers cfg.layer_idx ks.length + cfg.window_size) := by
  by_cases hreg : (ks.length : ℤ) < (governingCap cfg co - cfg.window_size) * 2
  · have hm := update_kv_moderate_length e scale negInf cfg ks qs vs co hv hlen hvlen
      hcw hq1 hreg
    rw [hkv] at hm
    simp only [Option.map_some', Option.some_inj, Prod.mk.injEq] at hm
    obtain ⟨h1, h2⟩ := hm
    exact ⟨by omega, by omega, fun _ => ⟨by omega, by omega⟩,
      fun hagg => absurd hreg (by omega)⟩
  · have ha := update_kv_aggressive_length e scale negInf cfg ks qs vs co hv hlen hvlen
      hcw hq1 (by omega)
    rw [hkv] at ha
    simp only [Option.map_some', Option.some_inj, Prod.mk.injEq] at ha
    obtain ⟨h1, h2⟩ := ha
    exact ⟨by omega, by omega, fun hmod => absurd hmod hreg,
      fun _ => ⟨by omega, by omega⟩⟩

/-- C1 amended-claim witness: a concrete moderate compressing call (window 1,
capacity 3, `q_len = 3`) whose output respects length and capacity bounds. -/
theorem C1_budget_bound_amended_witness :
    ((([[1], [2], [3]] : List Vec).length : ℤ) ≤ (([[1], [2], [3]] : List Vec).length : ℤ)) ∧
    ((([[4], [5], [6]] : List Vec).length : ℤ) ≤ (([[1], [2], [3]] : List Vec).length : ℤ)) ∧
    (((([[1], [2], [3]] : List Vec).length : ℤ)) < (governingCap ⟨2, 1, 3, 1, "avgpool", 1, 0⟩ none - 1) * 2 →
      ((([[1], [2], [3]] : List Vec).length : ℤ) ≤ governingCap ⟨2, 1, 3, 1, "avgpool", 1, 0⟩ none ∧
       (([[4], [5], [6]] : List Vec).length : ℤ) ≤ governingCap ⟨2, 1, 3, 1, "avgpool", 1, 0⟩ none)) ∧
    ((governingCap ⟨2, 1, 3, 1, "avgpool", 1, 0⟩ none - 1) * 2 ≤ (([[1], [2], [3]] : List Vec).length : ℤ) →
      ((([[1], [2], [3]] : List Vec).length : ℤ) ≤ layerBudget (governingCap ⟨2, 1, 3, 1, "avgpool", 1, 0⟩ none)
          1 1 2 0 ([[1], [2], [3]] : List Vec).length + 1 ∧
       (([[4], [5], [6]] : List Vec).length : ℤ) ≤ layerBudget (governingCap ⟨2, 1, 3, 1, "avgpool", 1, 0⟩ none)
          1 1 2 0 ([[1], [2], [3]] : List Vec).length + 1)) :=
  C1_budget_bound_amended (fun _ => 1) 1 (-1000) ⟨2, 1, 3, 1, "avgpool", 1, 0⟩
    [[1], [2], [3]] [[1], [2], [3]] [[4], [5], [6]] none
    ([[1], [2], [3]], [[4], [5], [6]])
    ⟨by decide, by decide, by decide, by decide, by decide, by decide, Or.inl rfl⟩
    rfl rfl (by decide) (by decide)
    (update_kv_keep_all (fun _ => 1) 1 (-1000) ⟨2, 1, 3, 1, "avgpool", 1, 0⟩
      [[1], [2], [3]] [[1], [2], [3]] [[4], [5], [6]] none
      ⟨by decide, by decide, by decide, by decide, by decide, by decide, Or.inl rfl⟩
      rfl rfl (by decide) (by decide) (by decide))

/-- C3 counterexample: with an unsupported pooling kind the degenerate
window-only call raises (`ValueError`) instead of completing — the scoring
pipeline runs (and fails) before the truncation check.  Here
`current_max_capacity = 1 ≤ window_size = 2 < q_len = 3`. -/
theorem C3_degenerate_counterexample :
    update_kv (fun _ => 1) 1 (-1000) ⟨2, 2, 5, 1, "linear", 1, 0⟩
      [[1], [2], [3]] [[1], [2], [3]] [[4], [5], [6]] (some 1) = none ∧
    governingCap ⟨2, 2, 5, 1, "linear", 1, 0⟩ (some 1) ≤ ((2 : ℕ) : ℤ) ∧
    (2 : ℕ) < 3 :=
  ⟨(update_kv_eq_aggressive (fun _ => 1) 1 (-1000) ⟨2, 2, 5, 1, "linear", 1, 0⟩
      [[1], [2], [3]] [[1], [2], [3]] [[4], [5], [6]] (some 1) rfl (by decide)
      (by decide) (by decide) (by decide)).trans
    (compressBranch_unsupported (fun _ => 1) 1 (-1000) ⟨2, 2, 5, 1, "linear", 1, 0⟩
      _ _ [[1], [2], [3]] [[1], [2], [3]] [[4], [5], [6]] (by decide) (by decide)),
   by decide, by decide⟩

/-- C3 (amended): when the governing capacity is at most `window_size` and
`q_len > window_size`, a call with a *supported* pooling kind truncates the
cache to the trailing `window_size` positions, of length exactly
`window_size`; the importance scores are still computed (and discarded), so an
unsupported pooling kind raises even here. -/
theorem C3_degenerate_window_only (e : ℚ → ℚ) (scale negInf : ℚ) (cfg : Cfg)
    (ks qs vs : List Vec) (co : Option ℤ)
    (hv : ValidCfg cfg) (hlen : ks.length = qs.length) (hvlen : vs.length = ks.length)
    (hcw : governingCap cfg co ≤ (cfg.window_size : ℤ))
    (hq : cfg.window_size < ks.length) :
    update_kv e scale negInf cfg ks qs vs co =
      some (lastN cfg.window_size ks, lastN cfg.window_size vs) ∧
    (lastN cfg.window_size ks).length = cfg.window_size ∧
    (lastN cfg.window_size vs).length = cfg.window_size := by
  obtain ⟨hnhl, hbeta, hws, hli0, hli1, hker, hpool⟩ := hv
  refine ⟨?_, lastN_length _ _ (by omega), lastN_length _ _ (by omega)⟩
  rw [update_kv_eq_aggressive e scale negInf cfg ks qs vs co hlen (by omega) (by omega)
    (by omega) (by omega)]
  exact compressBranch_degenerate e scale negInf cfg _ _ ks qs vs hker hpool hq hcw

/-- C3 amended-claim witness: the concrete degenerate call (window 2,
overridden capacity 1, three positions) truncates to the trailing two. -/
theorem C3_degenerate_window_only_witness :
    update_kv (fun _ => 1) 1 (-1000) ⟨2, 2, 5, 1, "avgpool", 1, 0⟩
      [[1], [2], [3]] [[1], [2], [3]] [[4], [5], [6]] (some 1) =
      some (lastN 2 [[1], [2], [3]], lastN 2 [[4], [5], [6]]) ∧
    (lastN 2 ([[1], [2], [3]] : List Vec)).length = 2 ∧
    (lastN 2 ([[4], [5], [6]] : List Vec)).length = 2 :=
  C3_degenerate_window_only (fun _ => 1) 1 (-1000) ⟨2, 2, 5, 1, "avgpool", 1, 0⟩
    [[1], [2], [3]] [[1], [2], [3]] [[4], [5], [6]] (some 1)
    ⟨by decide, by decide, by decide, by decide, by decide, by decide, Or.inl rfl⟩
    rfl rfl (by decide) (by decide)

/-- C4: the scheduler's layer budget is non-increasing in `layer_idx` for
every valid configuration with `q_len ≥ current_max_capacity`; and in the
concrete scenario (`window_size = 64`, `max_capacity_prompt = 320`,
`num_hidden_layers = 4`, `beta = 20`, `q_len = 600`) it yields
`min_num = 12`, `max_num = 500`, `steps = 162`, budgets 500 (layer 0) and 14
(layer 3), with retained output lengths 564 and 78, strictly decreasing. -/
theorem C4_pyramid_schedule (cmc ws beta nhl qlen li₁ li₂ : ℤ)
    (hbeta : 1 ≤ beta) (hcw : ws < cmc) (hq : cmc ≤ qlen) (hnhl : 2 ≤ nhl)
    (hli : li₁ ≤ li₂) :
    layerBudget cmc ws beta nhl li₂ qlen ≤ layerBudget cmc ws beta nhl li₁ qlen ∧
    schedMinMax 320 64 20 600 = (500, 12) ∧
    schedSteps 320 64 20 4 600 = 162 ∧
    layerBudget 320 64 20 4 0 600 = 500 ∧
    layerBudget 320 64 20 4 3 600 = 14 ∧
    (update_kv (fun _ => (1 : ℚ)) 1 (-1000) ⟨4, 64, 320, 5, "avgpool", 20, 0⟩
        (List.replicate 600 [1]) (List.replicate 600 [1]) (List.replicate 600 [1])
        none).map (fun p => ((p.1.length : ℤ), (p.2.length : ℤ))) = some (564, 564) ∧
    (update_kv (fun _ => (1 : ℚ)) 1 (-1000) ⟨4, 64, 320, 5, "avgpool", 20, 3⟩
        (List.replicate 600 [1]) (List.replicate 600 [1]) (List.replicate 600 [1])
        none).map (fun p => ((p.1.length : ℤ), (p.2.length : ℤ))) = some (78, 78) ∧
    (78 : ℤ) < 564 := by
  refine ⟨layerBudget_antitone cmc ws beta nhl qlen li₁ li₂ hbeta hcw hq hnhl hli,
    by decide, by decide, by decide, by decide, ?_, ?_, by decide⟩
  · rw [update_kv_aggressive_length (fun _ => 1) 1 (-1000)
      ⟨4, 64, 320, 5, "avgpool", 20, 0⟩ (List.replicate 600 [1])
      (List.replicate 600 [1]) (List.replicate 600 [1]) none
      ⟨by decide, by decide, by decide, by decide, by decide, by decide, Or.inl rfl⟩
      rfl rfl (by decide) (by rw [List.length_replicate]; decide)
      (by rw [List.length_replicate]; decide)]
    simp only [List.length_replicate]
    decide
  · rw [update_kv_aggressive_length (fun _ => 1) 1 (-1000)
      ⟨4, 64, 320, 5, "avgpool", 20, 3⟩ (List.replicate 600 [1])
      (List.replicate 600 [1]) (List.replicate 600 [1]) none
      ⟨by decide, by decide, by decide, by decide, by decide, by decide, Or.inl rfl⟩
      rfl rfl (by decide) (by rw [List.length_replicate]; decide)
      (by rw [List.length_replicate]; decide)]
    simp only [List.length_replicate]
    decide

/-- C4 witness: the monotonicity conjunct at the concrete scenario
(layer 3's budget is at most layer 0's). -/
theorem C4_pyramid_schedule_witness :
    layerBudget 320 64 20 4 3 600 ≤ layerBudget 320 64 20 4 0 600 :=
  (C4_pyramid_schedule 320 64 20 4 600 0 3 (by decide) (by decide) (by decide)
    (by decide) (by decide)).1

/-- C9: exact output-length formula (odd kernel): in the MODERATE regime with
capacity above the window the output length is exactly `current_max_capacity`
for every layer; in the AGGRESSIVE regime it is exactly
`min(layer_budget, q_len - window_size) + window_size` — the window is
retained in addition to the budget. -/
theorem C9_output_length_formula (e : ℚ → ℚ) (scale negInf : ℚ) (cfg : Cfg)
    (ks qs vs : List Vec) (co : Option ℤ)
    (hv : ValidCfg cfg) (hlen : ks.length = qs.length) (hvlen : vs.length = ks.length)
    (hcw : (cfg.window_size : ℤ) < governingCap cfg co)
    (hq1 : governingCap cfg co ≤ (ks.length : ℤ)) :
    ((ks.length : ℤ) < (governingCap cfg co - cfg.window_size) * 2 →
      (update_kv e scale negInf cfg ks qs vs co).map
        (fun p => ((p.1.length : ℤ), (p.2.length : ℤ))) =
      some (governingCap cfg co, governingCap cfg co)) ∧
    ((governingCap cfg co - cfg.window_size) * 2 ≤ (ks.length : ℤ) →
      (update_kv e scale negInf cfg ks qs vs co).map
        (fun p => ((p.1.length : ℤ), (p.2.length : ℤ))) =
      some (min (layerBudget (governingCap cfg co) cfg.window_size cfg.beta
              cfg.num_hidden_layers cfg.layer_idx ks.length)
              ((ks.length : ℤ) - cfg.window_size) + cfg.window_size,
            min (layerBudget (governingCap cfg co) cfg.window_size cfg.beta
              cfg.num_hidden_layers cfg.layer_idx ks.length)
              ((ks.length : ℤ) - cfg.window_size) + cfg.window_size)) :=
  ⟨fun hm => update_kv_moderate_length e scale negInf cfg ks qs vs co hv hlen hvlen
      hcw hq1 hm,
   fun ha => update_kv_aggressive_length e scale negInf cfg ks qs vs co hv hlen hvlen
      hcw hq1 ha⟩

/-- C9 witness: the moderate formula at a concrete call (window 1,
capacity 4, five positions): output length is exactly 4. -/
theorem C9_output_length_formula_witness :
    (update_kv (fun _ => (1 : ℚ)) 1 (-1000) ⟨2, 1, 4, 1, "avgpool", 1, 0⟩
        [[1], [2], [3], [4], [5]] [[1], [2], [3], [4], [5]] [[1], [2], [3], [4], [5]]
        none).map (fun p => ((p.1.length : ℤ), (p.2.length : ℤ))) = some (4, 4) :=
  (C9_output_length_formula (fun _ => 1) 1 (-1000) ⟨2, 1, 4, 1, "avgpool", 1, 0⟩
    [[1], [2], [3], [4], [5]] [[1], [2], [3], [4], [5]] [[1], [2], [3], [4], [5]] none
    ⟨by decide, by decide, by decide, by decide, by decide, by decide, Or.inl rfl⟩
    rfl rfl (by decide) (by decide)).1 (by decide)

/-- C10: with `pooling = "avgpool"` (odd kernel, nonempty scores) the smoother
returns exactly the zero-padded average: at every position the smoothed score
is the sum of the in-range raw scores within `kernel_size / 2`, divided by the
full `kernel_size` — so boundary positions are systematically attenuated by
the zero padding rather than averaged over only the in-range elements. -/
theorem C10_avgpool_zero_padding (cfg : Cfg) (s : List ℚ) (p : ℕ)
    (hpool : cfg.pooling = "avgpool") (hk : cfg.kernel_size % 2 = 1)
    (hs : 1 ≤ s.length) (hp : p < s.length) :
    pooledScores cfg s =
      some (avgPool1d cfg.kernel_size (cfg.kernel_size / 2) s) ∧
    (avgPool1d cfg.kernel_size (cfg.kernel_size / 2) s).getD p 0 =
      specPoolAvg cfg.kernel_size s p := by
  refine ⟨?_, avgPool1d_getD_spec _ _ _ hk hp⟩
  rw [pooledScores, if_neg (by omega), if_pos hpool]

/-- C10 witness: the zero-padded average at a concrete smoothing call
(kernel 3, three scores, boundary position 0). -/
theorem C10_avgpool_zero_padding_witness :
    pooledScores ⟨2, 1, 5, 3, "avgpool", 1, 0⟩ [1, 2, 3] =
      some (avgPool1d 3 1 [1, 2, 3]) ∧
    (avgPool1d 3 1 [(1 : ℚ), 2, 3]).getD 0 0 = specPoolAvg 3 [1, 2, 3] 0 :=
  C10_avgpool_zero_padding ⟨2, 1, 5, 3, "avgpool", 1, 0⟩ [1, 2, 3] 0 rfl
    (by decide) (by decide) (by decide)

/-- C8: the raw importance score of each historical position `h` equals the
sum over the `window_size` trailing query rows `i` of the row-`i` softmax over
all `q_len` key positions of the scaled dot products, evaluated at `j = h`,
where row `i` masks window positions later than `i` (by the dtype's additive
`-∞` stand-in `negInf`) and all historical positions are unmasked. -/
theorem C8_importance_estimator (e : ℚ → ℚ) (scale negInf : ℚ)
    (keys queries : List Vec) (ws h : ℕ)
    (hq : queries.length = keys.length) (hws : ws ≤ keys.length)
    (hh : h < keys.length - ws) :
    (attnWeightsSum e scale negInf ws keys queries).getD h 0 =
      specImportance e scale negInf keys queries ws h :=
  attnWeightsSum_eq_specImportance e scale negInf keys queries ws h hq hws hh

/-- C8 witness: the estimator identity at a concrete input (window 2, four
positions, a non-constant stand-in for `exp`). -/
theorem C8_importance_estimator_witness :
    (attnWeightsSum (fun x => 1 + x * x) 1 (-1000) 2 [[1], [2], [3], [4]]
      [[1], [2], [3], [4]]).getD 0 0 =
    specImportance (fun x => 1 + x * x) 1 (-1000) [[1], [2], [3], [4]]
      [[1], [2], [3], [4]] 2 0 :=
  C8_importance_estimator (fun x => 1 + x * x) 1 (-1000) [[1], [2], [3], [4]]
    [[1], [2], [3], [4]] 2 0 rfl (by decide) (by decide)

end PyramidKV
